import Mathlib

/-!
Verification of the detection-evaluation core of
`Monitoramento-de-produtos-em-estoque`
(`src/dataset/SKU110K_fixed/evaluate_model.py`).

The Python code is shallowly embedded below: numpy float arithmetic is
modelled over `ℚ`, lists over `List`, the per-image pipeline and the batch
loop as explicit state-passing functions, and exceptions as `Except` /
explicit outcome branches.  Every definition is translated directly from
the source file; the only definitions written from the specification's
wording are clearly marked as such in their doc comments.
-/

namespace SKU

/-- A bounding box in corner form `[x1, y1, x2, y2]`, as the rows of the
arrays handled by `evaluate_model.py`. -/
structure Box where
  x1 : ℚ
  y1 : ℚ
  x2 : ℚ
  y2 : ℚ
deriving DecidableEq, Repr

/-- Translation of `compute_iou(boxA, boxB)` (lines 30–41): intersection
over union with the `1e-6` additive epsilon in the denominator. -/
def compute_iou (boxA boxB : Box) : ℚ :=
  let xA := max boxA.x1 boxB.x1
  let yA := max boxA.y1 boxB.y1
  let xB := min boxA.x2 boxB.x2
  let yB := min boxA.y2 boxB.y2
  let interArea := max 0 (xB - xA) * max 0 (yB - yA)
  let boxAArea := (boxA.x2 - boxA.x1) * (boxA.y2 - boxA.y1)
  let boxBArea := (boxB.x2 - boxB.x1) * (boxB.y2 - boxB.y1)
  interArea / (boxAArea + boxBArea - interArea + 1 / 1000000)

/-- `iou_threshold = 0.5` (line 86 of the script). -/
def iou_threshold : ℚ := 1 / 2

/-- Translation of the inner loop of the matcher (lines 142–148): scan the
prediction boxes from index `j`, skipping indices in `used_pred`, keeping
the running `(best_iou, best_pred)` accumulator, updating only on a strict
improvement (`iou > best_iou`). -/
def scanFrom (gt_box : Box) : List Box → ℕ → List ℤ → ℚ × ℤ → ℚ × ℤ
  | [], _, _, acc => acc
  | p :: ps, j, used_pred, acc =>
    if (j : ℤ) ∈ used_pred then scanFrom gt_box ps (j + 1) used_pred acc
    else
      scanFrom gt_box ps (j + 1) used_pred
        (if acc.1 < compute_iou gt_box p then (compute_iou gt_box p, (j : ℤ)) else acc)

/-- The inner loop started as in the source: `best_iou = 0`,
`best_pred = -1` (lines 140–141). -/
def innerScan (gt_box : Box) (pred_boxes : List Box) (used_pred : List ℤ) : ℚ × ℤ :=
  scanFrom gt_box pred_boxes 0 used_pred (0, -1)

/-- Translation of the outer matching loop (lines 137–151): iterate over the
ground-truth boxes in order with their enumeration index `i`; record
`(i, best_pred)` and add `best_pred` to `used_pred` exactly when
`best_iou > iou_threshold`. -/
def matchFrom (pred_boxes : List Box) : List Box → ℕ → List (ℕ × ℤ) → List ℤ → List (ℕ × ℤ)
  | [], _, matchList, _ => matchList
  | gt_box :: rest, i, matchList, used_pred =>
    if iou_threshold < (innerScan gt_box pred_boxes used_pred).1 then
      matchFrom pred_boxes rest (i + 1)
        (matchList ++ [(i, (innerScan gt_box pred_boxes used_pred).2)])
        (used_pred ++ [(innerScan gt_box pred_boxes used_pred).2])
    else
      matchFrom pred_boxes rest (i + 1) matchList used_pred

/-- The complete greedy matcher of `evaluate_model.py`: `matchList` built from
empty `matchList`/`used_pred` (lines 137–138). -/
def greedyMatch (gt_boxes pred_boxes : List Box) : List (ℕ × ℤ) :=
  matchFrom pred_boxes gt_boxes 0 [] []

/-- Pairs each prediction box with its index, starting at `j`. -/
def enumFrom : ℕ → List Box → List (ℕ × Box)
  | _, [] => []
  | j, p :: ps => (j, p) :: enumFrom (j + 1) ps

/-- The inner scan restricted to an explicit candidate list with an
abstract score function (used to reason about `scanFrom` after filtering
out the used indices). -/
def pickBest (g : ℕ × Box → ℚ) : List (ℕ × Box) → ℚ × ℤ → ℚ × ℤ
  | [], acc => acc
  | c :: cs, acc => pickBest g cs (if acc.1 < g c then (g c, (c.1 : ℤ)) else acc)

/-- The not-yet-used prediction boxes, with their indices, in list order. -/
def cands (pred_boxes : List Box) (used_pred : List ℤ) : List (ℕ × Box) :=
  (enumFrom 0 pred_boxes).filter (fun c => decide (((c.1 : ℤ)) ∉ used_pred))

/-- Written from the specification's wording (§4.3, steps 1–2 and the
tie-break note): among the not-yet-used detections, scanned in the supplied
list order, select the one with the highest IoU against this ground-truth
box, the first-encountered detection winning exact ties. -/
def specBest (gt_box : Box) (pred_boxes : List Box) (used_pred : List ℤ) : Option (ℕ × Box) :=
  (cands pred_boxes used_pred).find?
    (fun c => (cands pred_boxes used_pred).all
      (fun d => decide (compute_iou gt_box d.2 ≤ compute_iou gt_box c.2)))

/-- Written from the specification's wording (§4.3): for each ground-truth
box in original list order, take the selected best unused detection; if its
IoU strictly exceeds the threshold, record the match and permanently mark
the detection used; otherwise leave the ground-truth unmatched. -/
def specMatchFrom (pred_boxes : List Box) :
    List Box → ℕ → List (ℕ × ℤ) → List ℤ → List (ℕ × ℤ)
  | [], _, matchList, _ => matchList
  | gt_box :: rest, i, matchList, used_pred =>
    match specBest gt_box pred_boxes used_pred with
    | some c =>
      if iou_threshold < compute_iou gt_box c.2 then
        specMatchFrom pred_boxes rest (i + 1) (matchList ++ [(i, (c.1 : ℤ))])
          (used_pred ++ [(c.1 : ℤ)])
      else specMatchFrom pred_boxes rest (i + 1) matchList used_pred
    | none => specMatchFrom pred_boxes rest (i + 1) matchList used_pred

/-- The specification-level greedy matcher (§4.3), to be compared with the
code-level `greedyMatch`. -/
def specMatch (gt_boxes pred_boxes : List Box) : List (ℕ × ℤ) :=
  specMatchFrom pred_boxes gt_boxes 0 [] []

/-- Translation of the per-image metric computation (lines 153–159):
`tp = len(matches)`, `fp = len(pred_boxes) - tp`, `fn = len(gt_boxes) - tp`,
and precision/recall guarded by a positivity test on their denominators.
Python `int`s are modelled as `ℤ`, the float divisions as `ℚ`. -/
def imageMetrics (gt_boxes pred_boxes : List Box) : ℤ × ℤ × ℤ × ℚ × ℚ :=
  let tp : ℤ := (greedyMatch gt_boxes pred_boxes).length
  let fp : ℤ := (pred_boxes.length : ℤ) - tp
  let fn : ℤ := (gt_boxes.length : ℤ) - tp
  let precision : ℚ := if 0 < tp + fp then (tp : ℚ) / ((tp : ℚ) + (fp : ℚ)) else 0
  let recl : ℚ := if 0 < tp + fn then (tp : ℚ) / ((tp : ℚ) + (fn : ℚ)) else 0
  (tp, fp, fn, precision, recl)

/-- A whitespace token of a label-file line: either numeric (a value
Python's `float` parses) or a token `float` rejects. -/
inductive Field where
  | num (q : ℚ)
  | bad
deriving DecidableEq, Repr

/-- One parsed label record `class x_center y_center width height`. -/
structure RawLabel where
  cls : ℚ
  x : ℚ
  y : ℚ
  w : ℚ
  h : ℚ
deriving DecidableEq, Repr

/-- Python's `float(tok)`: a parsed rational, or a raised `ValueError`. -/
def parseField : Field → Except Unit ℚ
  | .num q => .ok q
  | .bad => .error ()

/-- One iteration of the loop in `load_labels` (lines 12–16): lines with
fewer than five fields are skipped; otherwise
`cls, x, y, w, h = map(float, parts)` raises unless there are exactly five
fields, all numeric. -/
def parseLine (parts : List Field) : Except Unit (Option RawLabel) :=
  if 5 ≤ parts.length then
    match parts with
    | [c, x, y, w, h] => do
        let c ← parseField c
        let x ← parseField x
        let y ← parseField y
        let w ← parseField w
        let h ← parseField h
        pure (some ⟨c, x, y, w, h⟩)
    | _ => .error ()
  else .ok none

/-- Translation of `load_labels` (lines 8–17) on the pre-split lines of the
label file; an exception on any line aborts the whole load. -/
def load_labels : List (List Field) → Except Unit (List RawLabel)
  | [] => .ok []
  | line :: rest => do
    let hd ← parseLine line
    let tl ← load_labels rest
    match hd with
    | some l => pure (l :: tl)
    | none => pure tl

/-- Translation of `yolo_to_xyxy` (lines 19–28). -/
def yolo_to_xyxy (labels : List RawLabel) (img_w img_h : ℚ) : List Box :=
  labels.map (fun l =>
    ⟨(l.x - l.w / 2) * img_w, (l.y - l.h / 2) * img_h,
     (l.x + l.w / 2) * img_w, (l.y + l.h / 2) * img_h⟩)

/-- The observable data of one image of the validation set: whether a label
file exists, its pre-split lines, whether `cv2.imread` succeeds, the
decoded dimensions, whether model inference raises an unexpected
exception, and otherwise the predicted boxes. -/
structure ImageInput where
  hasLabel : Bool
  labelLines : List (List Field)
  decodes : Bool
  width : ℚ
  height : ℚ
  raises : Bool
  preds : List Box
deriving DecidableEq, Repr

/-- Observable events of the run: the `clear_memory()` call sites and the
terminal state each image reaches. -/
inductive Event where
  | clearMem
  | skippedNoLabel
  | skippedEmptyLabel
  | skippedDecodeFailure
  | noPrediction
  | evaluated
  | failed
deriving DecidableEq, Repr

/-- The run accumulator (lines 84–87): `all_precisions`, `all_recalls`,
`valid_images`. -/
structure RunState where
  all_precisions : List ℚ
  all_recalls : List ℚ
  valid_images : ℕ
deriving DecidableEq, Repr

/-- The initial accumulator (lines 84–87). -/
def initState : RunState := ⟨[], [], 0⟩

/-- Translation of one iteration of the per-image loop with its `except`
handler (lines 103–173).  Returns the updated accumulator and the events
of that image; `Event.clearMem` is emitted only where line 169 runs. -/
def processImage (img : ImageInput) (s : RunState) : RunState × List Event :=
  if ¬ img.hasLabel then (s, [Event.skippedNoLabel])
  else
    match load_labels img.labelLines with
    | Except.error _ => (s, [Event.failed])
    | Except.ok gt_labels =>
      if gt_labels.length = 0 then (s, [Event.skippedEmptyLabel])
      else if ¬ img.decodes then (s, [Event.skippedDecodeFailure])
      else
        let gt_boxes := yolo_to_xyxy gt_labels img.width img.height
        if img.raises then (s, [Event.failed])
        else
          let pred_boxes := img.preds
          if pred_boxes.length = 0 then
            ({ s with all_precisions := s.all_precisions ++ [0],
                      all_recalls := s.all_recalls ++ [0] },
             [Event.noPrediction])
          else
            let m := imageMetrics gt_boxes pred_boxes
            ({ all_precisions := s.all_precisions ++ [m.2.2.2.1],
               all_recalls := s.all_recalls ++ [m.2.2.2.2],
               valid_images := s.valid_images + 1 },
             [Event.evaluated, Event.clearMem])

/-- Sequential processing of a list of images, threading the accumulator
and concatenating events. -/
def processImages : List ImageInput → RunState → RunState × List Event
  | [], s => (s, [])
  | img :: rest, s =>
    let r := processImage img s
    let r2 := processImages rest r.1
    (r2.1, r.2 ++ r2.2)

/-- One iteration of the batch loop (lines 94–176): `clear_memory()` before
the batch (line 96), the image loop, and the forced `clear_memory()` after
the batch (line 176). -/
def processBatch (batch : List ImageInput) (s : RunState) : RunState × List Event :=
  let r := processImages batch s
  (r.1, Event.clearMem :: r.2 ++ [Event.clearMem])

/-- `batch_size = 5` (line 91). -/
def batch_size : ℕ := 5

/-- The slicing `image_paths[batch_idx:batch_idx+batch_size]` of the outer
loop, with an explicit structural fuel (any fuel at least the list length
produces the full chunking): contiguous chunks of `batch_size` images, the
last possibly smaller. -/
def chunks5F : ℕ → List ImageInput → List (List ImageInput)
  | 0, _ => []
  | _, [] => []
  | fuel + 1, img :: rest =>
    (img :: rest).take batch_size :: chunks5F fuel ((img :: rest).drop batch_size)

/-- The chunking of the image list into batches of `batch_size`. -/
def chunks5 (imgs : List ImageInput) : List (List ImageInput) :=
  chunks5F imgs.length imgs

/-- The batch loop over the chunked image list. -/
def runBatches : List (List ImageInput) → RunState → RunState × List Event
  | [], s => (s, [])
  | b :: bs, s =>
    let r := processBatch b s
    let r2 := runBatches bs r.1
    (r2.1, r.2 ++ r2.2)

/-- The whole evaluation loop (lines 89–176), from the initial
accumulator. -/
def runEval (imgs : List ImageInput) : RunState × List Event :=
  runBatches (chunks5 imgs) initState

/-- The run summary printed by the `finally` block. -/
inductive Summary where
  | means (mean_precision mean_recall : ℚ)
  | noValidImages
deriving DecidableEq, Repr

/-- Translation of the finalization (lines 181–191): guarded by
`valid_images > 0`; the means divide by `len(all_precisions)` and
`len(all_recalls)`. -/
def finalize (s : RunState) : Summary :=
  if 0 < s.valid_images then
    Summary.means (s.all_precisions.sum / (s.all_precisions.length : ℚ))
      (s.all_recalls.sum / (s.all_recalls.length : ℚ))
  else Summary.noValidImages

/-- Finalization applied to the final accumulator of a run. -/
def evalSummary (imgs : List ImageInput) : Summary :=
  finalize (runEval imgs).1

/-- Written from the specification's wording (§4.1): a record parses when
it is exactly a class identifier followed by four values, all numeric;
anything else yields no annotation. -/
def parsedLine (l : List Field) : Option RawLabel :=
  match l with
  | [a, b, c, d, e] =>
    match a, b, c, d, e with
    | Field.num cv, Field.num xv, Field.num yv, Field.num wv, Field.num hv =>
        some ⟨cv, xv, yv, wv, hv⟩
    | _, _, _, _, _ => none
  | _ => none

/-- A concrete image with one well-formed ground-truth record, a successful
decode, and one detection coinciding with the ground-truth box. -/
def goodImg : ImageInput :=
  { hasLabel := true,
    labelLines := [[Field.num 0, Field.num (1/2), Field.num (1/2),
                    Field.num (1/5), Field.num (1/5)]],
    decodes := true, width := 100, height := 100, raises := false,
    preds := [⟨40, 40, 60, 60⟩] }

/-- The same image with no detections. -/
def zeroPredImg : ImageInput := { goodImg with preds := [] }

/-- The same image whose inference raises an unexpected exception. -/
def failImg : ImageInput := { goodImg with raises := true }

/-- An image with no matching label file. -/
def noLabelImg : ImageInput := { goodImg with hasLabel := false }

/-- The intersection area used inside `compute_iou` is non-negative and,
when positive, is dominated by each box's own area. -/
lemma interArea_nonneg (boxA boxB : Box) :
    0 ≤ max 0 (min boxA.x2 boxB.x2 - max boxA.x1 boxB.x1) *
        max 0 (min boxA.y2 boxB.y2 - max boxA.y1 boxB.y1) :=
  mul_nonneg (le_max_left 0 _) (le_max_left 0 _)

/-- If the clamped intersection area is positive, it is at most the area of
the first box, and that area is positive. -/
lemma interArea_le_areaA (boxA boxB : Box)
    (h : 0 < max 0 (min boxA.x2 boxB.x2 - max boxA.x1 boxB.x1) *
         max 0 (min boxA.y2 boxB.y2 - max boxA.y1 boxB.y1)) :
    max 0 (min boxA.x2 boxB.x2 - max boxA.x1 boxB.x1) *
      max 0 (min boxA.y2 boxB.y2 - max boxA.y1 boxB.y1) ≤
      (boxA.x2 - boxA.x1) * (boxA.y2 - boxA.y1) := by
  set dx := min boxA.x2 boxB.x2 - max boxA.x1 boxB.x1 with hdx
  set dy := min boxA.y2 boxB.y2 - max boxA.y1 boxB.y1 with hdy
  have hx0 : 0 ≤ max 0 dx := le_max_left 0 dx
  have hy0 : 0 ≤ max 0 dy := le_max_left 0 dy
  have hxpos : 0 < max 0 dx := by
    by_contra hc
    push_neg at hc
    have : max 0 dx = 0 := le_antisymm hc hx0
    rw [this, zero_mul] at h
    exact lt_irrefl 0 h
  have hypos : 0 < max 0 dy := by
    by_contra hc
    push_neg at hc
    have : max 0 dy = 0 := le_antisymm hc hy0
    rw [this, mul_zero] at h
    exact lt_irrefl 0 h
  have hdxpos : 0 < dx := by
    rcases max_choice 0 dx with hm | hm
    · rw [hm] at hxpos; exact absurd hxpos (lt_irrefl 0)
    · rwa [hm] at hxpos
  have hdypos : 0 < dy := by
    rcases max_choice 0 dy with hm | hm
    · rw [hm] at hypos; exact absurd hypos (lt_irrefl 0)
    · rwa [hm] at hypos
  have hmx : max 0 dx = dx := max_eq_right hdxpos.le
  have hmy : max 0 dy = dy := max_eq_right hdypos.le
  rw [hmx, hmy]
  have h1 : dx ≤ boxA.x2 - boxA.x1 := by
    have ha : min boxA.x2 boxB.x2 ≤ boxA.x2 := min_le_left _ _
    have hb : boxA.x1 ≤ max boxA.x1 boxB.x1 := le_max_left _ _
    rw [hdx]; linarith
  have h2 : dy ≤ boxA.y2 - boxA.y1 := by
    have ha : min boxA.y2 boxB.y2 ≤ boxA.y2 := min_le_left _ _
    have hb : boxA.y1 ≤ max boxA.y1 boxB.y1 := le_max_left _ _
    rw [hdy]; linarith
  exact mul_le_mul h1 h2 hdypos.le (by linarith)

/-- Swapping the two boxes swaps the roles symmetrically inside the
intersection computation (second box's area bound). -/
lemma interArea_le_areaB (boxA boxB : Box)
    (h : 0 < max 0 (min boxA.x2 boxB.x2 - max boxA.x1 boxB.x1) *
         max 0 (min boxA.y2 boxB.y2 - max boxA.y1 boxB.y1)) :
    max 0 (min boxA.x2 boxB.x2 - max boxA.x1 boxB.x1) *
      max 0 (min boxA.y2 boxB.y2 - max boxA.y1 boxB.y1) ≤
      (boxB.x2 - boxB.x1) * (boxB.y2 - boxB.y1) := by
  have h' : 0 < max 0 (min boxB.x2 boxA.x2 - max boxB.x1 boxA.x1) *
      max 0 (min boxB.y2 boxA.y2 - max boxB.y1 boxA.y1) := by
    rw [min_comm boxB.x2, max_comm boxB.x1, min_comm boxB.y2, max_comm boxB.y1]
    exact h
  have := interArea_le_areaA boxB boxA h'
  rw [min_comm boxB.x2, max_comm boxB.x1, min_comm boxB.y2, max_comm boxB.y1] at this
  exact this

/-- `compute_iou` never returns a negative value, for arbitrary boxes. -/
lemma compute_iou_nonneg (boxA boxB : Box) : 0 ≤ compute_iou boxA boxB := by
  simp only [compute_iou]
  rcases eq_or_lt_of_le (interArea_nonneg boxA boxB) with hz | hpos
  · rw [← hz, zero_div]
  · have hA := interArea_le_areaA boxA boxB hpos
    have hB := interArea_le_areaB boxA boxB hpos
    exact div_nonneg (le_of_lt hpos) (by nlinarith)

/-- `compute_iou` is always strictly below `1`: the epsilon in the
denominator makes the ratio strictly less than one even for identical
boxes. -/
lemma compute_iou_lt_one (boxA boxB : Box) : compute_iou boxA boxB < 1 := by
  simp only [compute_iou]
  rcases eq_or_lt_of_le (interArea_nonneg boxA boxB) with hz | hpos
  · rw [← hz, zero_div]; norm_num
  · have hA := interArea_le_areaA boxA boxB hpos
    have hB := interArea_le_areaB boxA boxB hpos
    refine (div_lt_one ?_).mpr ?_ <;> nlinarith

lemma scanFrom_eq_pickBest (gt_box : Box) :
    ∀ (ps : List Box) (j : ℕ) (used_pred : List ℤ) (acc : ℚ × ℤ),
    scanFrom gt_box ps j used_pred acc =
      pickBest (fun c => compute_iou gt_box c.2)
        ((enumFrom j ps).filter (fun c => decide (((c.1 : ℤ)) ∉ used_pred))) acc := by
  intro ps
  induction ps with
  | nil => intro j u acc; rfl
  | cons p ps ih =>
    intro j u acc
    simp only [scanFrom, enumFrom, List.filter_cons]
    by_cases hj : ((j : ℤ)) ∈ u
    · rw [if_pos hj, ih]
      simp [hj]
    · rw [if_neg hj, ih]
      simp [hj, pickBest]

lemma foldl_max_init (l : List ℚ) : ∀ a : ℚ, a ≤ l.foldl max a := by
  induction l with
  | nil => intro a; exact le_refl a
  | cons x xs ih => intro a; exact le_trans (le_max_left a x) (ih (max a x))

lemma foldl_max_mem_le (l : List ℚ) : ∀ (a x : ℚ), x ∈ l → x ≤ l.foldl max a := by
  induction l with
  | nil => intro a x hx; cases hx
  | cons y ys ih =>
    intro a x hx
    rcases List.mem_cons.mp hx with h | h
    · subst h; exact le_trans (le_max_right a x) (foldl_max_init ys (max a x))
    · exact ih (max a y) x h

lemma foldl_max_le (l : List ℚ) :
    ∀ (a b : ℚ), a ≤ b → (∀ x ∈ l, x ≤ b) → l.foldl max a ≤ b := by
  induction l with
  | nil => intro a b hab _; exact hab
  | cons y ys ih =>
    intro a b hab hall
    exact ih (max a y) b (max_le hab (hall y (List.mem_cons_self y ys)))
      (fun x hx => hall x (List.mem_cons_of_mem y hx))

lemma pickBest_fst (g : ℕ × Box → ℚ) :
    ∀ (L : List (ℕ × Box)) (acc : ℚ × ℤ),
    (pickBest g L acc).1 = (L.map g).foldl max acc.1 := by
  intro L
  induction L with
  | nil => intro acc; rfl
  | cons c cs ih =>
    intro acc
    simp only [pickBest, List.map_cons, List.foldl_cons]
    rw [ih]
    congr 1
    by_cases h : acc.1 < g c
    · simp [h, max_eq_right (le_of_lt h)]
    · simp [h, max_eq_left (le_of_not_lt h)]

lemma pickBest_of_le (g : ℕ × Box → ℚ) :
    ∀ (L : List (ℕ × Box)) (acc : ℚ × ℤ),
    (∀ c ∈ L, g c ≤ acc.1) → pickBest g L acc = acc := by
  intro L
  induction L with
  | nil => intro acc _; rfl
  | cons c cs ih =>
    intro acc hall
    simp only [pickBest]
    rw [if_neg (not_lt.mpr (hall c (List.mem_cons_self c cs)))]
    exact ih acc (fun d hd => hall d (List.mem_cons_of_mem c hd))

lemma pickBest_first_max (g : ℕ × Box → ℚ) :
    ∀ (L : List (ℕ × Box)) (acc : ℚ × ℤ),
    acc.1 < (L.map g).foldl max acc.1 →
    ∃ c, L.find? (fun c => decide (g c = (L.map g).foldl max acc.1)) = some c ∧
      pickBest g L acc = ((L.map g).foldl max acc.1, (c.1 : ℤ)) := by
  intro L
  induction L with
  | nil => intro acc h; exact absurd h (lt_irrefl _)
  | cons c cs ih =>
    intro acc h
    by_cases hlt : acc.1 < g c
    · have eq1 : ((c :: cs).map g).foldl max acc.1 = (cs.map g).foldl max (g c) := by
        rw [List.map_cons, List.foldl_cons, max_eq_right (le_of_lt hlt)]
      by_cases hrec : g c < (cs.map g).foldl max (g c)
      · obtain ⟨c', hfind, hpick⟩ := ih ((g c, (c.1 : ℤ)) : ℚ × ℤ) hrec
        dsimp only at hfind hpick
        refine ⟨c', ?_, ?_⟩
        · rw [eq1, List.find?_cons_of_neg]
          · exact hfind
          · simp only [decide_eq_true_eq]
            intro heq
            rw [← heq] at hrec
            exact absurd hrec (lt_irrefl _)
        · simp only [pickBest]
          rw [if_pos hlt, hpick, eq1]
      · push_neg at hrec
        have hMc : (cs.map g).foldl max (g c) = g c :=
          le_antisymm hrec (foldl_max_init _ _)
        refine ⟨c, ?_, ?_⟩
        · apply List.find?_cons_of_pos
          simp only [decide_eq_true_eq]
          rw [eq1, hMc]
        · simp only [pickBest]
          rw [if_pos hlt, eq1, hMc]
          apply pickBest_of_le
          intro d hd
          have hle := foldl_max_mem_le (cs.map g) (g c) (g d) (List.mem_map_of_mem g hd)
          rw [hMc] at hle
          exact hle
    · have eq1 : ((c :: cs).map g).foldl max acc.1 = (cs.map g).foldl max acc.1 := by
        rw [List.map_cons, List.foldl_cons, max_eq_left (le_of_not_lt hlt)]
      rw [eq1] at h
      obtain ⟨c', hfind, hpick⟩ := ih acc h
      refine ⟨c', ?_, ?_⟩
      · rw [eq1, List.find?_cons_of_neg]
        · exact hfind
        · simp only [decide_eq_true_eq]
          intro heq
          have hle : g c ≤ acc.1 := le_of_not_lt hlt
          rw [heq] at hle
          exact absurd (lt_of_lt_of_le h hle) (lt_irrefl _)
      · simp only [pickBest]
        rw [if_neg hlt, hpick, eq1]

lemma find_congr (p q : (ℕ × Box) → Bool) :
    ∀ L : List (ℕ × Box), (∀ c ∈ L, p c = q c) → L.find? p = L.find? q := by
  intro L
  induction L with
  | nil => intro _; rfl
  | cons c cs ih =>
    intro h
    have hc := h c (List.mem_cons_self c cs)
    cases hp : p c with
    | true =>
      have hq : q c = true := by rw [← hc]; exact hp
      rw [List.find?_cons_of_pos _ hp, List.find?_cons_of_pos _ hq]
    | false =>
      have hq : q c = false := by rw [← hc]; exact hp
      rw [List.find?_cons_of_neg _ (by simp [hp]), List.find?_cons_of_neg _ (by simp [hq])]
      exact ih (fun d hd => h d (List.mem_cons_of_mem c hd))

lemma all_le_iff_eq_max (g : ℕ × Box → ℚ) (L : List (ℕ × Box)) (c : ℕ × Box)
    (hc : c ∈ L) (h0 : 0 ≤ g c) :
    (L.all (fun d => decide (g d ≤ g c)) = true) ↔ g c = (L.map g).foldl max 0 := by
  constructor
  · intro h
    have hall := List.all_eq_true.mp h
    apply le_antisymm
    · exact foldl_max_mem_le _ 0 _ (List.mem_map_of_mem g hc)
    · apply foldl_max_le
      · exact h0
      · intro x hx
        rcases List.mem_map.mp hx with ⟨d, hd, rfl⟩
        exact of_decide_eq_true (hall d hd)
  · intro h
    apply List.all_eq_true.mpr
    intro d hd
    apply decide_eq_true
    rw [h]
    exact foldl_max_mem_le _ 0 _ (List.mem_map_of_mem g hd)

lemma step_pos (g : ℕ × Box → ℚ) (hg : ∀ c, 0 ≤ g c) (L : List (ℕ × Box))
    (h : iou_threshold < (pickBest g L ((0 : ℚ), (-1 : ℤ))).1) :
    ∃ c, L.find? (fun c => L.all (fun d => decide (g d ≤ g c))) = some c ∧
      iou_threshold < g c ∧ (pickBest g L ((0 : ℚ), (-1 : ℤ))).2 = (c.1 : ℤ) := by
  have hfst : (pickBest g L ((0 : ℚ), (-1 : ℤ))).1 = (L.map g).foldl max 0 := by
    have hh := pickBest_fst g L ((0 : ℚ), (-1 : ℤ))
    simpa using hh
  have hM : iou_threshold < (L.map g).foldl max 0 := by rw [← hfst]; exact h
  have h0M : (((0 : ℚ), (-1 : ℤ)) : ℚ × ℤ).1 <
      (L.map g).foldl max (((0 : ℚ), (-1 : ℤ)) : ℚ × ℤ).1 := by
    show (0 : ℚ) < (L.map g).foldl max 0
    calc (0 : ℚ) < iou_threshold := by norm_num [iou_threshold]
      _ < _ := hM
  obtain ⟨c, hfind, hpick⟩ := pickBest_first_max g L ((0 : ℚ), (-1 : ℤ)) h0M
  dsimp only at hfind hpick
  have hp := List.find?_some hfind
  have hgcM : g c = (L.map g).foldl max 0 := of_decide_eq_true hp
  have hcL : c ∈ L := List.mem_of_find?_eq_some hfind
  have hcongr : L.find? (fun c => L.all (fun d => decide (g d ≤ g c)))
      = L.find? (fun c => decide (g c = (L.map g).foldl max 0)) := by
    apply find_congr
    intro e heL
    by_cases he : g e = (L.map g).foldl max 0
    · rw [decide_eq_true he, (all_le_iff_eq_max g L e heL (hg e)).mpr he]
    · rw [decide_eq_false he]
      cases hall : L.all (fun d => decide (g d ≤ g e)) with
      | false => rfl
      | true => exact absurd ((all_le_iff_eq_max g L e heL (hg e)).mp hall) he
  refine ⟨c, ?_, ?_, ?_⟩
  · rw [hcongr]; exact hfind
  · rw [hgcM]; exact hM
  · rw [hpick]

lemma step_neg (g : ℕ × Box → ℚ) (hg : ∀ c, 0 ≤ g c) (L : List (ℕ × Box))
    (h : ¬ iou_threshold < (pickBest g L ((0 : ℚ), (-1 : ℤ))).1) :
    ∀ c, L.find? (fun c => L.all (fun d => decide (g d ≤ g c))) = some c →
      ¬ iou_threshold < g c := by
  intro c hfind
  have hfst : (pickBest g L ((0 : ℚ), (-1 : ℤ))).1 = (L.map g).foldl max 0 := by
    have hh := pickBest_fst g L ((0 : ℚ), (-1 : ℤ))
    simpa using hh
  have hcL : c ∈ L := List.mem_of_find?_eq_some hfind
  have hall := List.find?_some hfind
  have hgcM : g c = (L.map g).foldl max 0 :=
    (all_le_iff_eq_max g L c hcL (hg c)).mp (by exact hall)
  rw [hgcM, ← hfst]
  exact h

lemma mem_enumFrom : ∀ (ps : List Box) (j : ℕ) (c : ℕ × Box),
    c ∈ enumFrom j ps → j ≤ c.1 ∧ c.1 < j + ps.length := by
  intro ps
  induction ps with
  | nil => intro j c hc; cases hc
  | cons p ps ih =>
    intro j c hc
    rcases List.mem_cons.mp hc with h | h
    · subst h; simp
    · have := ih (j + 1) c h
      constructor
      · omega
      · simp only [List.length_cons]; omega

lemma mem_cands {pred_boxes : List Box} {used_pred : List ℤ} {c : ℕ × Box}
    (hc : c ∈ cands pred_boxes used_pred) :
    ((c.1 : ℤ)) ∉ used_pred ∧ c.1 < pred_boxes.length := by
  have h1 := List.mem_filter.mp hc
  refine ⟨of_decide_eq_true h1.2, ?_⟩
  have := mem_enumFrom pred_boxes 0 c h1.1
  omega

lemma specBest_innerScan_pos (gt_box : Box) (pred_boxes : List Box) (used_pred : List ℤ)
    (h : iou_threshold < (innerScan gt_box pred_boxes used_pred).1) :
    ∃ c, specBest gt_box pred_boxes used_pred = some c ∧
      iou_threshold < compute_iou gt_box c.2 ∧
      (innerScan gt_box pred_boxes used_pred).2 = (c.1 : ℤ) ∧
      c ∈ cands pred_boxes used_pred := by
  have hbridge : innerScan gt_box pred_boxes used_pred =
      pickBest (fun c => compute_iou gt_box c.2) (cands pred_boxes used_pred)
        ((0 : ℚ), (-1 : ℤ)) :=
    scanFrom_eq_pickBest gt_box pred_boxes 0 used_pred ((0 : ℚ), (-1 : ℤ))
  rw [hbridge] at h
  obtain ⟨c, hfind, hlt, h2⟩ := step_pos (fun c => compute_iou gt_box c.2)
    (fun c => compute_iou_nonneg gt_box c.2) (cands pred_boxes used_pred) h
  refine ⟨c, ?_, ?_, ?_, List.mem_of_find?_eq_some hfind⟩
  · exact hfind
  · exact hlt
  · rw [hbridge]; exact h2

lemma specBest_innerScan_neg (gt_box : Box) (pred_boxes : List Box) (used_pred : List ℤ)
    (h : ¬ iou_threshold < (innerScan gt_box pred_boxes used_pred).1) :
    ∀ c, specBest gt_box pred_boxes used_pred = some c →
      ¬ iou_threshold < compute_iou gt_box c.2 := by
  have hbridge : innerScan gt_box pred_boxes used_pred =
      pickBest (fun c => compute_iou gt_box c.2) (cands pred_boxes used_pred)
        ((0 : ℚ), (-1 : ℤ)) :=
    scanFrom_eq_pickBest gt_box pred_boxes 0 used_pred ((0 : ℚ), (-1 : ℤ))
  rw [hbridge] at h
  intro c hc
  exact step_neg (fun c => compute_iou gt_box c.2) (fun c => compute_iou_nonneg gt_box c.2)
    (cands pred_boxes used_pred) h c hc

lemma matchFrom_eq_specFrom (pred_boxes : List Box) :
    ∀ (gs : List Box) (i : ℕ) (matchList : List (ℕ × ℤ)) (used_pred : List ℤ),
    matchFrom pred_boxes gs i matchList used_pred =
      specMatchFrom pred_boxes gs i matchList used_pred := by
  intro gs
  induction gs with
  | nil => intro i ms u; rfl
  | cons g rest ih =>
    intro i ms u
    by_cases hc : iou_threshold < (innerScan g pred_boxes u).1
    · obtain ⟨c, hsb, hlt, h2, _⟩ := specBest_innerScan_pos g pred_boxes u hc
      simp only [matchFrom, specMatchFrom, hsb, hc, hlt, h2, if_true]
      exact ih (i + 1) (ms ++ [(i, (c.1 : ℤ))]) (u ++ [(c.1 : ℤ)])
    · simp only [matchFrom, hc, if_false]
      cases hsb : specBest g pred_boxes u with
      | none =>
        simp only [specMatchFrom, hsb]
        exact ih (i + 1) ms u
      | some c =>
        have hnlt := specBest_innerScan_neg g pred_boxes u hc c hsb
        simp only [specMatchFrom, hsb, hnlt, if_false]
        exact ih (i + 1) ms u

lemma matchFrom_length_le (pred_boxes : List Box) :
    ∀ (gs : List Box) (i : ℕ) (ms : List (ℕ × ℤ)) (u : List ℤ),
    (matchFrom pred_boxes gs i ms u).length ≤ ms.length + gs.length := by
  intro gs
  induction gs with
  | nil => intro i ms u; simp [matchFrom]
  | cons g rest ih =>
    intro i ms u
    simp only [matchFrom]
    by_cases hc : iou_threshold < (innerScan g pred_boxes u).1
    · rw [if_pos hc]
      have hih := ih (i + 1) (ms ++ [(i, (innerScan g pred_boxes u).2)])
        (u ++ [(innerScan g pred_boxes u).2])
      simp only [List.length_append, List.length_cons, List.length_nil] at hih ⊢
      omega
    · rw [if_neg hc]
      have hih := ih (i + 1) ms u
      simp only [List.length_cons]
      omega

lemma matchFrom_inv (pred_boxes : List Box) :
    ∀ (gs : List Box) (i : ℕ) (ms : List (ℕ × ℤ)) (u : List ℤ),
    (∀ m ∈ ms, m.1 < i) →
    (ms.map Prod.fst).Nodup →
    (ms.map Prod.snd).Nodup →
    (∀ m ∈ ms, m.2 ∈ u) →
    (∀ m ∈ ms, 0 ≤ m.2 ∧ m.2 < (pred_boxes.length : ℤ)) →
    ((matchFrom pred_boxes gs i ms u).map Prod.fst).Nodup ∧
    ((matchFrom pred_boxes gs i ms u).map Prod.snd).Nodup ∧
    (∀ m ∈ matchFrom pred_boxes gs i ms u, 0 ≤ m.2 ∧ m.2 < (pred_boxes.length : ℤ)) := by
  intro gs
  induction gs with
  | nil => intro i ms u h1 h2 h3 h4 h5; exact ⟨h2, h3, h5⟩
  | cons g rest ih =>
    intro i ms u h1 h2 h3 h4 h5
    simp only [matchFrom]
    by_cases hc : iou_threshold < (innerScan g pred_boxes u).1
    · rw [if_pos hc]
      obtain ⟨c, hsb, hlt, h2eq, hcmem⟩ := specBest_innerScan_pos g pred_boxes u hc
      obtain ⟨hnotu, hbound⟩ := mem_cands hcmem
      rw [h2eq]
      apply ih
      · intro m hm
        rcases List.mem_append.mp hm with h | h
        · exact lt_trans (h1 m h) (Nat.lt_succ_self i)
        · rcases List.mem_singleton.mp h with rfl
          exact Nat.lt_succ_self i
      · rw [List.map_append, List.nodup_append]
        refine ⟨h2, by simp, ?_⟩
        intro x hx hx2
        simp only [List.map_cons, List.map_nil, List.mem_singleton] at hx2
        subst hx2
        rcases List.mem_map.mp hx with ⟨m, hm, hmeq⟩
        have := h1 m hm
        omega
      · rw [List.map_append, List.nodup_append]
        refine ⟨h3, by simp, ?_⟩
        intro x hx hx2
        simp only [List.map_cons, List.map_nil, List.mem_singleton] at hx2
        subst hx2
        rcases List.mem_map.mp hx with ⟨m, hm, hmeq⟩
        apply hnotu
        rw [← hmeq]
        exact h4 m hm
      · intro m hm
        rcases List.mem_append.mp hm with h | h
        · exact List.mem_append_left _ (h4 m h)
        · rcases List.mem_singleton.mp h with rfl
          exact List.mem_append_right _ (List.mem_singleton.mpr rfl)
      · intro m hm
        rcases List.mem_append.mp hm with h | h
        · exact h5 m h
        · rcases List.mem_singleton.mp h with rfl
          refine ⟨Int.natCast_nonneg c.1, ?_⟩
          show ((c.1 : ℤ)) < (pred_boxes.length : ℤ)
          exact_mod_cast hbound
    · rw [if_neg hc]
      apply ih
      · intro m hm
        exact lt_trans (h1 m hm) (Nat.lt_succ_self i)
      · exact h2
      · exact h3
      · exact h4
      · exact h5

lemma nodup_int_range_length (n : ℕ) (l : List ℤ) (hn : l.Nodup)
    (hb : ∀ x ∈ l, 0 ≤ x ∧ x < (n : ℤ)) : l.length ≤ n := by
  have hmapnd : (l.map Int.toNat).Nodup := by
    apply hn.map_on
    intro x hx y hy hxy
    have hx0 := (hb x hx).1
    have hy0 := (hb y hy).1
    rw [← Int.toNat_of_nonneg hx0, ← Int.toNat_of_nonneg hy0, hxy]
  have hsub : (l.map Int.toNat).toFinset ⊆ Finset.range n := by
    intro y hy
    rcases List.mem_map.mp (List.mem_toFinset.mp hy) with ⟨x, hx, rfl⟩
    have h1 := (hb x hx).1
    have h2 := (hb x hx).2
    apply Finset.mem_range.mpr
    omega
  calc l.length = (l.map Int.toNat).length := (List.length_map _ _).symm
    _ = (l.map Int.toNat).toFinset.card := (List.toFinset_card_of_nodup hmapnd).symm
    _ ≤ (Finset.range n).card := Finset.card_le_card hsub
    _ = n := Finset.card_range n

lemma greedyMatch_length_le_gts (gt_boxes pred_boxes : List Box) :
    (greedyMatch gt_boxes pred_boxes).length ≤ gt_boxes.length := by
  have h := matchFrom_length_le pred_boxes gt_boxes 0 [] []
  simpa using h

lemma greedyMatch_sound (gt_boxes pred_boxes : List Box) :
    ((greedyMatch gt_boxes pred_boxes).map Prod.fst).Nodup ∧
    ((greedyMatch gt_boxes pred_boxes).map Prod.snd).Nodup ∧
    (∀ m ∈ greedyMatch gt_boxes pred_boxes,
      0 ≤ m.2 ∧ m.2 < (pred_boxes.length : ℤ)) := by
  exact matchFrom_inv pred_boxes gt_boxes 0 [] []
    (by intro m hm; cases hm) (by simp) (by simp)
    (by intro m hm; cases hm) (by intro m hm; cases hm)

lemma greedyMatch_length_le_preds (gt_boxes pred_boxes : List Box) :
    (greedyMatch gt_boxes pred_boxes).length ≤ pred_boxes.length := by
  have h := greedyMatch_sound gt_boxes pred_boxes
  have hb : ∀ x ∈ (greedyMatch gt_boxes pred_boxes).map Prod.snd,
      0 ≤ x ∧ x < (pred_boxes.length : ℤ) := by
    intro x hx
    rcases List.mem_map.mp hx with ⟨m, hm, rfl⟩
    exact h.2.2 m hm
  have hlen := nodup_int_range_length pred_boxes.length
    ((greedyMatch gt_boxes pred_boxes).map Prod.snd) h.2.1 hb
  rwa [List.length_map] at hlen

/-- **C3**: the code-level greedy matcher behaves exactly as specified:
ground-truth boxes are visited in their original list order; for each, the
not-yet-used detection with the highest IoU is selected, exact ties going
to the first-encountered detection in list order; a match is recorded and
the detection permanently marked used precisely when that best IoU strictly
exceeds 0.5.  Stated as equality with `specMatch`, the matcher written from
the specification's wording. -/
theorem greedyMatch_refines_spec (gt_boxes pred_boxes : List Box) :
    greedyMatch gt_boxes pred_boxes = specMatch gt_boxes pred_boxes :=
  matchFrom_eq_specFrom pred_boxes gt_boxes 0 [] []

/-- **C5**: the match set produced by the greedy matcher is one-to-one: no
annotation index appears in two matches and no detection index appears in
two matches. -/
theorem greedyMatch_one_to_one (gt_boxes pred_boxes : List Box) :
    ((greedyMatch gt_boxes pred_boxes).map Prod.fst).Nodup ∧
    ((greedyMatch gt_boxes pred_boxes).map Prod.snd).Nodup :=
  ⟨(greedyMatch_sound gt_boxes pred_boxes).1, (greedyMatch_sound gt_boxes pred_boxes).2.1⟩

/-- **C10**: the match count is at most the ground-truth count and at most
the prediction count, so `false_positives` and `false_negatives` are
non-negative and the per-image precision and recall lie in `[0, 1]`. -/
theorem match_counts_bounded (gt_boxes pred_boxes : List Box) :
    (greedyMatch gt_boxes pred_boxes).length ≤ gt_boxes.length ∧
    (greedyMatch gt_boxes pred_boxes).length ≤ pred_boxes.length ∧
    0 ≤ (imageMetrics gt_boxes pred_boxes).2.1 ∧
    0 ≤ (imageMetrics gt_boxes pred_boxes).2.2.1 ∧
    0 ≤ (imageMetrics gt_boxes pred_boxes).2.2.2.1 ∧
    (imageMetrics gt_boxes pred_boxes).2.2.2.1 ≤ 1 ∧
    0 ≤ (imageMetrics gt_boxes pred_boxes).2.2.2.2 ∧
    (imageMetrics gt_boxes pred_boxes).2.2.2.2 ≤ 1 := by
  have hG := greedyMatch_length_le_gts gt_boxes pred_boxes
  have hP := greedyMatch_length_le_preds gt_boxes pred_boxes
  refine ⟨hG, hP, ?_, ?_, ?_, ?_, ?_, ?_⟩ <;> simp only [imageMetrics]
  · omega
  · omega
  · split_ifs with h
    · apply div_nonneg
      · exact Int.cast_nonneg.mpr (Int.natCast_nonneg _)
      · have h' : ((0 : ℤ) : ℚ) < (((greedyMatch gt_boxes pred_boxes).length : ℤ) : ℚ) +
            (((pred_boxes.length : ℤ) - ((greedyMatch gt_boxes pred_boxes).length : ℤ) : ℤ) : ℚ) := by
          exact_mod_cast h
        push_cast at h' ⊢
        linarith
    · exact le_refl 0
  · split_ifs with h
    · have h' : (0 : ℚ) < (((greedyMatch gt_boxes pred_boxes).length : ℤ) : ℚ) +
          (((pred_boxes.length : ℤ) - ((greedyMatch gt_boxes pred_boxes).length : ℤ) : ℤ) : ℚ) := by
        exact_mod_cast h
      rw [div_le_one h']
      push_cast
      have hPQ : ((greedyMatch gt_boxes pred_boxes).length : ℚ) ≤ (pred_boxes.length : ℚ) := by
        exact_mod_cast hP
      linarith
    · norm_num
  · split_ifs with h
    · apply div_nonneg
      · exact Int.cast_nonneg.mpr (Int.natCast_nonneg _)
      · have h' : ((0 : ℤ) : ℚ) < (((greedyMatch gt_boxes pred_boxes).length : ℤ) : ℚ) +
            (((gt_boxes.length : ℤ) - ((greedyMatch gt_boxes pred_boxes).length : ℤ) : ℤ) : ℚ) := by
          exact_mod_cast h
        push_cast at h' ⊢
        linarith
    · exact le_refl 0
  · split_ifs with h
    · have h' : (0 : ℚ) < (((greedyMatch gt_boxes pred_boxes).length : ℤ) : ℚ) +
          (((gt_boxes.length : ℤ) - ((greedyMatch gt_boxes pred_boxes).length : ℤ) : ℤ) : ℚ) := by
        exact_mod_cast h
      rw [div_le_one h']
      push_cast
      have hGQ : ((greedyMatch gt_boxes pred_boxes).length : ℚ) ≤ (gt_boxes.length : ℚ) := by
        exact_mod_cast hG
      linarith
    · norm_num

lemma processImage_raises (img : ImageInput) (s : RunState)
    (h : img.raises = true) : (processImage img s).1 = s := by
  unfold processImage
  split
  · rfl
  · split
    · rfl
    · split
      · rfl
      · split
        · rfl
        · simp [h]

lemma processImage_events (img : ImageInput) (s : RunState) :
    (processImage img s).2 = [Event.skippedNoLabel] ∨
    (processImage img s).2 = [Event.failed] ∨
    (processImage img s).2 = [Event.skippedEmptyLabel] ∨
    (processImage img s).2 = [Event.skippedDecodeFailure] ∨
    (processImage img s).2 = [Event.noPrediction] ∨
    (processImage img s).2 = [Event.evaluated, Event.clearMem] := by
  unfold processImage
  split
  · exact Or.inl rfl
  · split
    · exact Or.inr (Or.inl rfl)
    · split
      · exact Or.inr (Or.inr (Or.inl rfl))
      · split
        · exact Or.inr (Or.inr (Or.inr (Or.inl rfl)))
        · split
          · exact Or.inr (Or.inl rfl)
          · dsimp only
            split
            · exact Or.inr (Or.inr (Or.inr (Or.inr (Or.inl rfl))))
            · exact Or.inr (Or.inr (Or.inr (Or.inr (Or.inr rfl))))

lemma processImages_append (a b : List ImageInput) :
    ∀ s : RunState, processImages (a ++ b) s =
      ((processImages b (processImages a s).1).1,
        (processImages a s).2 ++ (processImages b (processImages a s).1).2) := by
  induction a with
  | nil => intro s; simp [processImages]
  | cons x xs ih =>
    intro s
    simp only [List.cons_append, processImages, List.append_eq]
    rw [ih (processImage x s).1]
    simp [List.append_assoc]

lemma runBatches_chunksF_fst :
    ∀ (fuel : ℕ) (imgs : List ImageInput), imgs.length ≤ fuel →
    ∀ s, (runBatches (chunks5F fuel imgs) s).1 = (processImages imgs s).1 := by
  intro fuel
  induction fuel with
  | zero =>
    intro imgs h s
    rw [List.eq_nil_of_length_eq_zero (Nat.le_zero.mp h)]
    rfl
  | succ n ih =>
    intro imgs h s
    cases imgs with
    | nil => rfl
    | cons x xs =>
      rw [chunks5F]
      simp only [runBatches]
      have hlen : ((x :: xs).drop batch_size).length ≤ n := by
        simp only [List.length_drop, List.length_cons, batch_size]
        simp only [List.length_cons] at h
        omega
      have h1 : (processBatch ((x :: xs).take batch_size) s).1 =
          (processImages ((x :: xs).take batch_size) s).1 := rfl
      rw [ih ((x :: xs).drop batch_size) hlen, h1]
      conv_rhs => rw [← List.take_append_drop batch_size (x :: xs)]
      rw [processImages_append]

lemma runEval_fst (imgs : List ImageInput) :
    (runEval imgs).1 = (processImages imgs initState).1 :=
  runBatches_chunksF_fst imgs.length imgs (le_refl _) initState

/-- **C2**: an unexpected per-image exception is caught and isolated: the
run over `xs ++ [failing image] ++ ys` ends in the same accumulator and
summary as the run over `xs ++ ys`; finalization reports the means of the
accumulated precision/recall values when `valid_images > 0`, and reports
that no valid images were processed when `valid_images = 0`, never dividing
by a zero count. -/
theorem failed_image_isolated (xs ys : List ImageInput) (img : ImageInput)
    (h : img.raises = true) :
    evalSummary (xs ++ img :: ys) = evalSummary (xs ++ ys) ∧
    (0 < (runEval (xs ++ ys)).1.valid_images →
      evalSummary (xs ++ ys) = Summary.means
        ((runEval (xs ++ ys)).1.all_precisions.sum /
          ((runEval (xs ++ ys)).1.all_precisions.length : ℚ))
        ((runEval (xs ++ ys)).1.all_recalls.sum /
          ((runEval (xs ++ ys)).1.all_recalls.length : ℚ))) ∧
    ((runEval (xs ++ ys)).1.valid_images = 0 →
      evalSummary (xs ++ ys) = Summary.noValidImages) := by
  have hstate : (runEval (xs ++ img :: ys)).1 = (runEval (xs ++ ys)).1 := by
    rw [runEval_fst, runEval_fst, processImages_append, processImages_append]
    simp only [processImages]
    rw [processImage_raises img _ h]
  refine ⟨?_, ?_, ?_⟩
  · rw [evalSummary, evalSummary, hstate]
  · intro hv
    rw [evalSummary, finalize, if_pos hv]
  · intro hv
    rw [evalSummary, finalize, if_neg (by omega)]

lemma compute_iou_no_overlap (boxA boxB : Box)
    (h : boxA.x2 ≤ boxB.x1 ∨ boxB.x2 ≤ boxA.x1 ∨ boxA.y2 ≤ boxB.y1 ∨ boxB.y2 ≤ boxA.y1) :
    compute_iou boxA boxB = 0 := by
  simp only [compute_iou]
  rcases h with h | h | h | h
  · have hx : min boxA.x2 boxB.x2 - max boxA.x1 boxB.x1 ≤ 0 := by
      have h1 : min boxA.x2 boxB.x2 ≤ boxA.x2 := min_le_left _ _
      have h2 : boxB.x1 ≤ max boxA.x1 boxB.x1 := le_max_right _ _
      linarith
    rw [max_eq_left hx, zero_mul, zero_div]
  · have hx : min boxA.x2 boxB.x2 - max boxA.x1 boxB.x1 ≤ 0 := by
      have h1 : min boxA.x2 boxB.x2 ≤ boxB.x2 := min_le_right _ _
      have h2 : boxA.x1 ≤ max boxA.x1 boxB.x1 := le_max_left _ _
      linarith
    rw [max_eq_left hx, zero_mul, zero_div]
  · have hy : min boxA.y2 boxB.y2 - max boxA.y1 boxB.y1 ≤ 0 := by
      have h1 : min boxA.y2 boxB.y2 ≤ boxA.y2 := min_le_left _ _
      have h2 : boxB.y1 ≤ max boxA.y1 boxB.y1 := le_max_right _ _
      linarith
    rw [max_eq_left hy, mul_zero, zero_div]
  · have hy : min boxA.y2 boxB.y2 - max boxA.y1 boxB.y1 ≤ 0 := by
      have h1 : min boxA.y2 boxB.y2 ≤ boxB.y2 := min_le_right _ _
      have h2 : boxA.y1 ≤ max boxA.y1 boxB.y1 := le_max_left _ _
      linarith
    rw [max_eq_left hy, mul_zero, zero_div]

lemma compute_iou_self (boxA : Box) (hx : boxA.x1 ≤ boxA.x2) (hy : boxA.y1 ≤ boxA.y2) :
    compute_iou boxA boxA =
      ((boxA.x2 - boxA.x1) * (boxA.y2 - boxA.y1)) /
        ((boxA.x2 - boxA.x1) * (boxA.y2 - boxA.y1) + 1 / 1000000) := by
  simp only [compute_iou, max_self, min_self]
  rw [max_eq_right (by linarith : (0 : ℚ) ≤ boxA.x2 - boxA.x1),
      max_eq_right (by linarith : (0 : ℚ) ≤ boxA.y2 - boxA.y1)]
  congr 1
  ring

/-- **C9**: `compute_iou` is symmetric in its two arguments. -/
theorem compute_iou_symmetric (boxA boxB : Box) :
    compute_iou boxA boxB = compute_iou boxB boxA := by
  simp only [compute_iou]
  rw [max_comm boxA.x1, max_comm boxA.y1, min_comm boxA.x2, min_comm boxA.y2]
  congr 1
  ring

/-- **C7** counterexample: for the valid box `(0,0,1,1)` paired with
itself, `compute_iou` returns `1000000/1000001`, not exactly `1`: the
`1e-6` epsilon added to the union prevents the claimed value. -/
theorem iou_identical_ne_one_cex :
    compute_iou ⟨0, 0, 1, 1⟩ ⟨0, 0, 1, 1⟩ = 1000000 / 1000001 ∧
    compute_iou ⟨0, 0, 1, 1⟩ ⟨0, 0, 1, 1⟩ ≠ 1 := by
  constructor
  · norm_num [compute_iou]
  · norm_num [compute_iou]

/-- **C7** (amended): for boxes with `x1 ≤ x2` and `y1 ≤ y2` the IoU lies
in `[0, 1)` — never exactly `1`; it is exactly `0` whenever the boxes fail
to overlap in some axis; and for identical boxes it equals
`area / (area + 1e-6)`, which is strictly below `1`. -/
theorem iou_range_amended (boxA boxB : Box)
    (hAx : boxA.x1 ≤ boxA.x2) (hAy : boxA.y1 ≤ boxA.y2)
    (hBx : boxB.x1 ≤ boxB.x2) (hBy : boxB.y1 ≤ boxB.y2) :
    0 ≤ compute_iou boxA boxB ∧ compute_iou boxA boxB < 1 ∧
    ((boxA.x2 ≤ boxB.x1 ∨ boxB.x2 ≤ boxA.x1 ∨ boxA.y2 ≤ boxB.y1 ∨ boxB.y2 ≤ boxA.y1) →
      compute_iou boxA boxB = 0) ∧
    (boxA = boxB →
      compute_iou boxA boxB =
        ((boxA.x2 - boxA.x1) * (boxA.y2 - boxA.y1)) /
          ((boxA.x2 - boxA.x1) * (boxA.y2 - boxA.y1) + 1 / 1000000)) := by
  refine ⟨compute_iou_nonneg boxA boxB, compute_iou_lt_one boxA boxB,
    compute_iou_no_overlap boxA boxB, ?_⟩
  intro h
  subst h
  exact compute_iou_self boxA hAx hAy

/-- Witness for the amended C7 at a concrete input: the boxes `(0,0,2,3)`
and `(5,0,6,1)` are valid and disjoint on the x axis, and the theorem
yields IoU exactly `0` there. -/
theorem iou_range_amended_witness :
    compute_iou ⟨0, 0, 2, 3⟩ ⟨5, 0, 6, 1⟩ = 0 :=
  (iou_range_amended ⟨0, 0, 2, 3⟩ ⟨5, 0, 6, 1⟩
    (by norm_num) (by norm_num) (by norm_num) (by norm_num)).2.2.1
    (Or.inl (by norm_num))

lemma parsedLine_short (l : List Field) (h : ¬ 5 ≤ l.length) : parsedLine l = none := by
  rcases l with _ | ⟨a, _ | ⟨b, _ | ⟨c, _ | ⟨d, _ | ⟨e, tl⟩⟩⟩⟩⟩
  · rfl
  · rfl
  · rfl
  · rfl
  · rfl
  · exfalso
    apply h
    simp only [List.length_cons]
    omega

/-- **C4** counterexample: a malformed record with six numeric fields makes
`load_labels` raise (the five-way tuple unpacking fails), so the whole load
fails instead of returning the remaining well-formed records. -/
theorem load_labels_long_record_fails_cex :
    load_labels
      [[Field.num 0, Field.num (1/2), Field.num (1/2), Field.num (1/5), Field.num (1/5)],
       [Field.num 0, Field.num 1, Field.num 2, Field.num 3, Field.num 4, Field.num 5]]
      = Except.error () := rfl

/-- **C4** (amended): records with fewer than five fields are silently
discarded and never fail the load, and the loader returns the remaining
records in order — provided every record with at least five fields has
exactly five, all numeric.  (A record with more than five fields or a
non-numeric field raises and aborts the whole load, as the counterexample
shows.) -/
theorem load_labels_short_records_dropped (lines : List (List Field))
    (h : ∀ l ∈ lines, 5 ≤ l.length → l.length = 5 ∧ ∀ f ∈ l, f ≠ Field.bad) :
    load_labels lines = Except.ok (lines.filterMap parsedLine) := by
  induction lines with
  | nil => rfl
  | cons l rest ih =>
    have hrest := ih (fun m hm => h m (List.mem_cons_of_mem l hm))
    by_cases h5 : 5 ≤ l.length
    · obtain ⟨hlen, hnum⟩ := h l (List.mem_cons_self l rest) h5
      rcases l with _ | ⟨a, l1⟩
      · simp at hlen
      rcases l1 with _ | ⟨b, l2⟩
      · simp at hlen
      rcases l2 with _ | ⟨c, l3⟩
      · simp at hlen
      rcases l3 with _ | ⟨d, l4⟩
      · simp at hlen
      rcases l4 with _ | ⟨e, l5⟩
      · simp at hlen
      rcases l5 with _ | ⟨f, l6⟩
      swap
      · simp at hlen
      obtain ⟨qa, rfl⟩ : ∃ q, a = Field.num q := by
        cases a with
        | num q => exact ⟨q, rfl⟩
        | bad => exact absurd rfl (hnum Field.bad (by simp))
      obtain ⟨qb, rfl⟩ : ∃ q, b = Field.num q := by
        cases b with
        | num q => exact ⟨q, rfl⟩
        | bad => exact absurd rfl (hnum Field.bad (by simp))
      obtain ⟨qc, rfl⟩ : ∃ q, c = Field.num q := by
        cases c with
        | num q => exact ⟨q, rfl⟩
        | bad => exact absurd rfl (hnum Field.bad (by simp))
      obtain ⟨qd, rfl⟩ : ∃ q, d = Field.num q := by
        cases d with
        | num q => exact ⟨q, rfl⟩
        | bad => exact absurd rfl (hnum Field.bad (by simp))
      obtain ⟨qe, rfl⟩ : ∃ q, e = Field.num q := by
        cases e with
        | num q => exact ⟨q, rfl⟩
        | bad => exact absurd rfl (hnum Field.bad (by simp))
      simp only [load_labels, List.filterMap_cons]
      rw [hrest]
      rfl
    · have hpl : parseLine l = Except.ok none := by
        simp [parseLine, h5]
      have hpn : parsedLine l = none := parsedLine_short l h5
      simp only [load_labels, List.filterMap_cons, hpl, hpn]
      rw [hrest]
      rfl

/-- Witness for the amended C4 at a concrete input: a well-formed record
followed by a one-field record loads successfully, dropping only the short
record. -/
theorem load_labels_short_records_dropped_witness :
    load_labels
      [[Field.num 0, Field.num (1/2), Field.num (1/2), Field.num (1/5), Field.num (1/5)],
       [Field.num 9]]
      = Except.ok [⟨0, 1/2, 1/2, 1/5, 1/5⟩] := by
  rw [load_labels_short_records_dropped _ (by decide)]
  rfl

/-- **C1** counterexample: for an image with non-empty parsed ground truth
and an empty detection list, the code appends 0 to both per-image metric
sequences but leaves `valid_images` unchanged — the image is *not* counted
in the valid-image count, contrary to the claim. -/
theorem zeroPred_not_counted_cex :
    (processImage zeroPredImg initState).1.all_precisions = [0] ∧
    (processImage zeroPredImg initState).1.all_recalls = [0] ∧
    (processImage zeroPredImg initState).1.valid_images ≠ initState.valid_images + 1 := by
  refine ⟨rfl, rfl, ?_⟩
  decide

/-- **C1** (amended): for every image whose parsed ground-truth list is
non-empty but whose detection list is empty, the run appends precision 0
and recall 0 to the per-image sequences used for the dataset means — but
`valid_images` is *not* incremented, so such an image does not count
toward the guard used at finalization. -/
theorem zeroPred_appends_zeros (img : ImageInput) (s : RunState) (L : List RawLabel)
    (h1 : img.hasLabel = true) (h2 : load_labels img.labelLines = Except.ok L)
    (h3 : L ≠ []) (h4 : img.decodes = true) (h5 : img.raises = false)
    (h6 : img.preds = []) :
    processImage img s =
      ({ s with all_precisions := s.all_precisions ++ [0],
                all_recalls := s.all_recalls ++ [0] },
       [Event.noPrediction]) := by
  simp [processImage, h1, h2, h4, h5, h6, List.length_eq_zero, h3]

/-- Witness for the amended C1 at a concrete input. -/
theorem zeroPred_appends_zeros_witness :
    zeroPredImg.preds = [] ∧
    processImage zeroPredImg initState =
      ({ initState with all_precisions := [0], all_recalls := [0] },
       [Event.noPrediction]) := by
  refine ⟨rfl, ?_⟩
  rw [zeroPred_appends_zeros zeroPredImg initState [⟨0, 1/2, 1/2, 1/5, 1/5⟩]
    rfl rfl (by decide) rfl rfl rfl]
  rfl

/-- **C6**: for an image that reaches metric computation with ground-truth
count `G > 0` and prediction count `P > 0`, the run appends exactly
`precision = TP/(TP+FP)` if `TP+FP > 0` else `0` and
`recall = TP/(TP+FN)` if `TP+FN > 0` else `0`, where `TP = M` is the match
count of the greedy matcher, `FP = P − M` and `FN = G − M`, and increments
the valid-image count. -/
theorem metrics_formulas (img : ImageInput) (s : RunState) (L : List RawLabel)
    (h1 : img.hasLabel = true) (h2 : load_labels img.labelLines = Except.ok L)
    (h3 : L ≠ []) (h4 : img.decodes = true) (h5 : img.raises = false)
    (h6 : img.preds ≠ []) :
    processImage img s =
      (let gt_boxes := yolo_to_xyxy L img.width img.height
       let M : ℤ := ((greedyMatch gt_boxes img.preds).length : ℤ)
       let P : ℤ := (img.preds.length : ℤ)
       let G : ℤ := (gt_boxes.length : ℤ)
       let TP : ℤ := M
       let FP : ℤ := P - M
       let FN : ℤ := G - M
       ({ all_precisions := s.all_precisions ++
            [if 0 < TP + FP then (TP : ℚ) / ((TP : ℚ) + (FP : ℚ)) else 0],
          all_recalls := s.all_recalls ++
            [if 0 < TP + FN then (TP : ℚ) / ((TP : ℚ) + (FN : ℚ)) else 0],
          valid_images := s.valid_images + 1 },
        [Event.evaluated, Event.clearMem])) := by
  simp [processImage, imageMetrics, h1, h2, h4, h5, List.length_eq_zero, h3, h6]

/-- Witness for C6 at a concrete input: an image with one ground-truth
record and one detection satisfies every hypothesis, and the theorem gives
the appended precision/recall in the claimed TP/FP/FN form, with the
valid-image count incremented. -/
theorem metrics_formulas_witness :
    goodImg.preds ≠ [] ∧
    processImage goodImg initState =
      (let gt_boxes := yolo_to_xyxy [⟨0, 1/2, 1/2, 1/5, 1/5⟩] goodImg.width goodImg.height
       let M : ℤ := ((greedyMatch gt_boxes goodImg.preds).length : ℤ)
       let P : ℤ := (goodImg.preds.length : ℤ)
       let G : ℤ := (gt_boxes.length : ℤ)
       let TP : ℤ := M
       let FP : ℤ := P - M
       let FN : ℤ := G - M
       ({ all_precisions := initState.all_precisions ++
            [if 0 < TP + FP then (TP : ℚ) / ((TP : ℚ) + (FP : ℚ)) else 0],
          all_recalls := initState.all_recalls ++
            [if 0 < TP + FN then (TP : ℚ) / ((TP : ℚ) + (FN : ℚ)) else 0],
          valid_images := initState.valid_images + 1 },
        [Event.evaluated, Event.clearMem])) :=
  ⟨by decide, metrics_formulas goodImg initState [⟨0, 1/2, 1/2, 1/5, 1/5⟩]
    rfl rfl (by decide) rfl rfl (by decide)⟩

/-- **C8** counterexample: an image skipped for a missing label emits no
resource reclamation during its processing — the per-image
`clear_memory()` at line 169 is reached only on the successful-evaluation
path, so reclamation *is* skipped for skipped images. -/
theorem skipped_image_no_clearMem_cex :
    (processImage noLabelImg initState).2 = [Event.skippedNoLabel] ∧
    Event.clearMem ∉ (processImage noLabelImg initState).2 := by
  refine ⟨rfl, ?_⟩
  decide

/-- **C8** (amended): explicit reclamation runs unconditionally before and
after each batch; within a batch it runs after an image precisely when that
image was successfully evaluated — skipped images, zero-detection images
and failed images trigger no per-image reclamation. -/
theorem clearMem_policy (batch : List ImageInput) (img : ImageInput) (s t : RunState) :
    ((processBatch batch s).2.head? = some Event.clearMem ∧
      (processBatch batch s).2.getLast? = some Event.clearMem) ∧
    (Event.clearMem ∈ (processImage img t).2 ↔
      Event.evaluated ∈ (processImage img t).2) := by
  refine ⟨⟨rfl, ?_⟩, ?_⟩
  · show (Event.clearMem :: ((processImages batch s).2 ++ [Event.clearMem])).getLast?
      = some Event.clearMem
    rw [← List.cons_append, List.getLast?_concat]
  · rcases processImage_events img t with h | h | h | h | h | h <;> rw [h] <;> simp

/-- Witness for C2 at a concrete input: a two-image run whose second image
raises an unexpected exception produces the same summary as the one-image
run without it. -/
theorem failed_image_isolated_witness :
    failImg.raises = true ∧
    evalSummary [goodImg, failImg] = evalSummary [goodImg] :=
  ⟨rfl, (failed_image_isolated [goodImg] [] failImg rfl).1⟩

end SKU
